import Mathlib

/-!
Verification of the detection decoding and suppression pipeline of
`DroneDetection/public/app.js` (YOLOv8 post-processing).

The source is shallowly embedded over `ℚ`: JavaScript numbers become
rationals, the flat `Float32Array` output tensor becomes a `List ℚ` read
with `List.getD` (default `0`), and each function of the source is
translated definition-for-definition below.
-/

/-- `CONF_THRESHOLD` constant of the source (`0.4`). -/
def CONF_THRESHOLD : ℚ := 2 / 5

/-- `NMS_THRESHOLD` constant of the source (`0.5`). -/
def NMS_THRESHOLD : ℚ := 1 / 2

/-- `INPUT_SIZE` constant of the source (`640`). -/
def INPUT_SIZE : ℕ := 640

/-- The `CLASSES` table of the source; only its length (5) matters to the
decoder, which truncates the class scan to `min(numClasses, CLASSES.length)`. -/
def CLASSES : List String :=
  ["unknown", "drone", "unknown", "unknown", "unknown"]

/-- The epsilon `1e-6` added to the IoU denominator in the source. -/
def EPS : ℚ := 1 / 1000000

/-- A detection record as built by `decodeYOLO` and consumed by `nms` and
`drawDetections`: corner coordinates, confidence score and class index. -/
structure Det where
  x1 : ℚ
  y1 : ℚ
  x2 : ℚ
  y2 : ℚ
  score : ℚ
  classId : ℤ
deriving DecidableEq, Repr

/-- A raw per-prediction candidate before coordinate remapping:
center, size, best score and best class, in input-tensor pixel space. -/
structure Candidate where
  cx : ℚ
  cy : ℚ
  w : ℚ
  h : ℚ
  score : ℚ
  classId : ℤ
deriving DecidableEq, Repr

/-- Signed area `(x2 - x1) * (y2 - y1)` of a box, as in the source's
`boxAArea` / `boxBArea`. -/
def area (a : Det) : ℚ :=
  (a.x2 - a.x1) * (a.y2 - a.y1)

/-- The intersection area computed by `iou` in the source:
`Math.max(0, x2 - x1) * Math.max(0, y2 - y1)` on the clipped corners. -/
def interArea (a b : Det) : ℚ :=
  max 0 (min a.x2 b.x2 - max a.x1 b.x1) * max 0 (min a.y2 b.y2 - max a.y1 b.y1)

/-- `iou(a, b)` of the source: intersection over union with the `1e-6`
denominator guard. -/
def iou (a b : Det) : ℚ :=
  interArea a b / (area a + area b - interArea a b + EPS)

/-- Stable descending insertion into a list already sorted by descending
score; ties keep the inserted (originally earlier) element first, matching
the stable `Array.prototype.sort` with comparator `(a, b) => b.score - a.score`. -/
def insertDesc (d : Det) : List Det → List Det
  | [] => [d]
  | x :: xs => if x.score ≤ d.score then d :: x :: xs else x :: insertDesc d xs

/-- Stable sort by descending score, the first line of the source's `nms`. -/
def sortDesc : List Det → List Det
  | [] => []
  | x :: xs => insertDesc x (sortDesc xs)

/-- The greedy suppression loop of the source's `nms`: take the head,
keep it, and drop every remaining box whose IoU with it reaches the
threshold. -/
def nmsLoop (t : ℚ) : List Det → List Det
  | [] => []
  | current :: rest =>
      current :: nmsLoop t (rest.filter fun b => iou current b < t)
termination_by l => l.length
decreasing_by
  simp only [List.length_cons]
  exact Nat.lt_succ_of_le (List.length_filter_le _ _)

/-- `nms(boxes, threshold)` of the source: sort by descending score, then
run the greedy suppression loop. -/
def nms (boxes : List Det) (t : ℚ) : List Det :=
  nmsLoop t (sortDesc boxes)

/-- The class-score read of the decoder: attribute `4 + c` of prediction
`i` lives at flat index `i + (4 + c) * numPreds`. -/
def classScore (data : List ℚ) (P i c : ℕ) : ℚ :=
  data.getD (i + (4 + c) * P) 0

/-- The best-class scan of the decoder: starting from
`bestScore = 0, bestClass = -1`, scan class channels `0, 1, …, n - 1` in
order and record a new best only on a strictly greater score. -/
def bestFold (score : ℕ → ℚ) : ℕ → ℚ × ℤ
  | 0 => (0, -1)
  | n + 1 =>
      if (bestFold score n).1 < score n then (score n, (n : ℤ)) else bestFold score n

/-- `Math.max(0, Math.min(hi, x))`, the per-coordinate clamp of the decoder. -/
def clampTo (hi x : ℚ) : ℚ :=
  max 0 (min hi x)

/-- The coordinate remapping block of `decodeYOLO`: center/size to corners,
inverse letterbox `(x - pad) / scale`, then clamp to the image bounds;
score and class are carried over unchanged. -/
def remap (c : Candidate) (scale padX padY imgW imgH : ℚ) : Det :=
  ⟨clampTo imgW ((c.cx - c.w / 2 - padX) / scale),
   clampTo imgH ((c.cy - c.h / 2 - padY) / scale),
   clampTo imgW ((c.cx + c.w / 2 - padX) / scale),
   clampTo imgH ((c.cy + c.h / 2 - padY) / scale),
   c.score, c.classId⟩

/-- One iteration of the decoder's prediction loop: read the geometry,
scan `C` class channels, drop the prediction when the best score is below
the threshold, otherwise emit the remapped detection. -/
def decodePred (thr : ℚ) (data : List ℚ) (P C : ℕ)
    (imgW imgH scale padX padY : ℚ) (i : ℕ) : Option Det :=
  if (bestFold (classScore data P i) C).1 < thr then none
  else some (remap
    ⟨data.getD i 0, data.getD (i + P) 0, data.getD (i + 2 * P) 0, data.getD (i + 3 * P) 0,
      (bestFold (classScore data P i) C).1, (bestFold (classScore data P i) C).2⟩
    scale padX padY imgW imgH)

/-- The body of `decodeYOLO` with the confidence threshold as an explicit
parameter (the source reads the module constant `CONF_THRESHOLD`): on a
rank-3 shape, decode every prediction and pass the surviving candidates
through `nms`; on any other rank the source logs and returns `[]`. -/
def decodeCore (thr : ℚ) (dims : List ℕ) (data : List ℚ)
    (imgW imgH scale padX padY : ℚ) : List Det :=
  match dims with
  | [_, numAttrs, numPreds] =>
      nms ((List.range numPreds).filterMap
          (decodePred thr data numPreds (min (numAttrs - 4) CLASSES.length)
            imgW imgH scale padX padY))
        NMS_THRESHOLD
  | _ => []

/-- `decodeYOLO(output, imgWidth, imgHeight, scale, padX, padY)` of the
source, at the shipped threshold `CONF_THRESHOLD`. -/
def decodeYOLO (dims : List ℕ) (data : List ℚ)
    (imgW imgH scale padX padY : ℚ) : List Det :=
  decodeCore CONF_THRESHOLD dims data imgW imgH scale padX padY

/-- The letterbox parameters computed by the source's `preprocess`. -/
structure LetterboxParams where
  scale : ℚ
  newW : ℤ
  newH : ℤ
  padX : ℤ
  padY : ℤ
deriving DecidableEq, Repr

/-- The letterbox computation of the source's `preprocess`:
`scale = min(S / w, S / h)`, then `Math.round` of the scaled sides and of
the half leftover padding, with `S = INPUT_SIZE`. -/
def letterbox (srcW srcH : ℚ) : LetterboxParams :=
  let scale := min ((INPUT_SIZE : ℚ) / srcW) ((INPUT_SIZE : ℚ) / srcH)
  let newW := round (srcW * scale)
  let newH := round (srcH * scale)
  ⟨scale, newW, newH,
   round (((INPUT_SIZE : ℚ) - (newW : ℚ)) / 2),
   round (((INPUT_SIZE : ℚ) - (newH : ℚ)) / 2)⟩

/-- The Letterbox Transform exactly as worded in the spec (§4.1), with the
square target size `S` a parameter; to be compared with `letterbox`. -/
def specLetterbox (S srcW srcH : ℚ) : LetterboxParams :=
  let scale := min (S / srcW) (S / srcH)
  let newW := round (srcW * scale)
  let newH := round (srcH * scale)
  ⟨scale, newW, newH,
   round ((S - (newW : ℚ)) / 2),
   round ((S - (newH : ℚ)) / 2)⟩

/-! ### Helper lemmas -/

lemma iou_comm (a b : Det) : iou a b = iou b a := by
  unfold iou interArea
  rw [min_comm a.x2 b.x2, max_comm a.x1 b.x1, min_comm a.y2 b.y2, max_comm a.y1 b.y1]
  ring_nf

lemma mem_insertDesc {x d : Det} : ∀ {l : List Det}, x ∈ insertDesc d l ↔ x = d ∨ x ∈ l := by
  intro l
  induction l with
  | nil => simp [insertDesc]
  | cons y ys ih =>
    by_cases h : y.score ≤ d.score
    · simp [insertDesc, h]
    · simp [insertDesc, h, ih]
      tauto

lemma mem_sortDesc {x : Det} : ∀ {l : List Det}, x ∈ sortDesc l ↔ x ∈ l := by
  intro l
  induction l with
  | nil => simp [sortDesc]
  | cons y ys ih => simp [sortDesc, mem_insertDesc, ih]

lemma insertDesc_pairwise {d : Det} :
    ∀ {l : List Det}, l.Pairwise (fun a b => b.score ≤ a.score) →
      (insertDesc d l).Pairwise (fun a b => b.score ≤ a.score) := by
  intro l
  induction l with
  | nil => intro _; simp [insertDesc]
  | cons y ys ih =>
    intro h
    obtain ⟨hy, hys⟩ := List.pairwise_cons.mp h
    by_cases hc : y.score ≤ d.score
    · rw [insertDesc, if_pos hc]
      refine List.pairwise_cons.mpr ⟨?_, h⟩
      intro b hb
      rcases List.mem_cons.mp hb with hb | hb
      · exact hb ▸ hc
      · exact le_trans (hy b hb) hc
    · rw [insertDesc, if_neg hc]
      refine List.pairwise_cons.mpr ⟨?_, ih hys⟩
      intro b hb
      rcases mem_insertDesc.mp hb with hb | hb
      · exact hb ▸ le_of_lt (lt_of_not_le hc)
      · exact hy b hb

lemma sortDesc_pairwise :
    ∀ (l : List Det), (sortDesc l).Pairwise (fun a b => b.score ≤ a.score) := by
  intro l
  induction l with
  | nil => simp [sortDesc]
  | cons y ys ih => exact insertDesc_pairwise ih

lemma sortDesc_eq_of_sorted :
    ∀ {l : List Det}, l.Pairwise (fun a b => b.score ≤ a.score) → sortDesc l = l := by
  intro l
  induction l with
  | nil => intro _; rfl
  | cons y ys ih =>
    intro h
    obtain ⟨hy, hys⟩ := List.pairwise_cons.mp h
    rw [sortDesc, ih hys]
    cases ys with
    | nil => rfl
    | cons z zs => rw [insertDesc, if_pos (hy z (List.mem_cons_self z zs))]

lemma nmsLoop_props (t : ℚ) :
    ∀ (n : ℕ) (l : List Det), l.length ≤ n →
      (∀ d ∈ nmsLoop t l, d ∈ l) ∧
      (nmsLoop t l).Pairwise (fun a b => iou a b < t) ∧
      (l.Pairwise (fun a b => b.score ≤ a.score) →
        (nmsLoop t l).Pairwise (fun a b => b.score ≤ a.score)) ∧
      (l.Pairwise (fun a b => iou a b < t) → nmsLoop t l = l) := by
  intro n
  induction n with
  | zero =>
    intro l hl
    have hnil : l = [] := List.eq_nil_of_length_eq_zero (Nat.le_zero.mp hl)
    subst hnil
    simp [nmsLoop]
  | succ n ih =>
    intro l hl
    cases l with
    | nil => simp [nmsLoop]
    | cons c rest =>
      have hcons : nmsLoop t (c :: rest) =
          c :: nmsLoop t (rest.filter fun b => iou c b < t) := by
        rw [nmsLoop]
      have hrest : rest.length ≤ n := by
        simpa using Nat.succ_le_succ_iff.mp (by simpa using hl)
      have hflen : (rest.filter fun b => iou c b < t).length ≤ n :=
        le_trans (List.length_filter_le _ _) hrest
      obtain ⟨ihsub, ihpw, ihsort, ihid⟩ := ih _ hflen
      refine ⟨?_, ?_, ?_, ?_⟩
      · intro d hd
        rw [hcons] at hd
        rcases List.mem_cons.mp hd with hd | hd
        · exact hd ▸ List.mem_cons_self c rest
        · exact List.mem_cons_of_mem c (List.mem_filter.mp (ihsub d hd)).1
      · rw [hcons]
        refine List.pairwise_cons.mpr ⟨?_, ihpw⟩
        intro b hb
        exact of_decide_eq_true (List.mem_filter.mp (ihsub b hb)).2
      · intro hsorted
        obtain ⟨hc, hrestp⟩ := List.pairwise_cons.mp hsorted
        rw [hcons]
        refine List.pairwise_cons.mpr ⟨?_, ihsort (hrestp.filter _)⟩
        intro b hb
        exact hc b (List.mem_filter.mp (ihsub b hb)).1
      · intro hpw
        obtain ⟨hc, hrestp⟩ := List.pairwise_cons.mp hpw
        have hfe : rest.filter (fun b => iou c b < t) = rest :=
          List.filter_eq_self.mpr fun a ha => decide_eq_true (hc a ha)
        rw [hfe] at ihid
        rw [hcons, hfe, ihid hrestp]

lemma nms_subset {D : List Det} {t : ℚ} : ∀ d ∈ nms D t, d ∈ D := by
  intro d hd
  exact mem_sortDesc.mp ((nmsLoop_props t (sortDesc D).length (sortDesc D) le_rfl).1 d hd)

lemma nms_pairwise (D : List Det) (t : ℚ) :
    (nms D t).Pairwise (fun a b => iou a b < t) :=
  (nmsLoop_props t (sortDesc D).length (sortDesc D) le_rfl).2.1

lemma nms_sorted (D : List Det) (t : ℚ) :
    (nms D t).Pairwise (fun a b => b.score ≤ a.score) :=
  (nmsLoop_props t (sortDesc D).length (sortDesc D) le_rfl).2.2.1 (sortDesc_pairwise D)

lemma nms_idem (D : List Det) (t : ℚ) : nms (nms D t) t = nms D t := by
  have hs : sortDesc (nms D t) = nms D t := sortDesc_eq_of_sorted (nms_sorted D t)
  show nmsLoop t (sortDesc (nms D t)) = nms D t
  rw [hs]
  exact (nmsLoop_props t (nms D t).length (nms D t) le_rfl).2.2.2 (nms_pairwise D t)

lemma bestFold_spec (score : ℕ → ℚ) :
    ∀ n : ℕ,
      (bestFold score n = (0, -1) ∧ ∀ j < n, score j ≤ 0) ∨
      (∃ k, k < n ∧ bestFold score n = (score k, (k : ℤ)) ∧ 0 < score k ∧
        (∀ j < n, score j ≤ score k) ∧ (∀ j < k, score j < score k)) := by
  intro n
  induction n with
  | zero =>
    left
    exact ⟨rfl, fun j hj => absurd hj (Nat.not_lt_zero j)⟩
  | succ n ih =>
    rcases ih with ⟨heq, hle⟩ | ⟨k, hk, heq, hpos, hmax, hfirst⟩
    · by_cases h : (bestFold score n).1 < score n
      · right
        refine ⟨n, Nat.lt_succ_self n, by rw [bestFold, if_pos h], ?_, ?_, ?_⟩
        · have : (bestFold score n).1 = 0 := by rw [heq]
          rw [this] at h
          exact h
        · intro j hj
          rcases Nat.lt_succ_iff_lt_or_eq.mp hj with hj | hj
          · have h0 : (bestFold score n).1 = 0 := by rw [heq]
            rw [h0] at h
            exact le_of_lt (lt_of_le_of_lt (hle j hj) h)
          · exact hj ▸ le_rfl
        · intro j hj
          have h0 : (bestFold score n).1 = 0 := by rw [heq]
          rw [h0] at h
          exact lt_of_le_of_lt (hle j hj) h
      · left
        refine ⟨by rw [bestFold, if_neg h, heq], ?_⟩
        intro j hj
        rcases Nat.lt_succ_iff_lt_or_eq.mp hj with hj | hj
        · exact hle j hj
        · have h0 : (bestFold score n).1 = 0 := by rw [heq]
          rw [h0] at h
          exact hj ▸ not_lt.mp h
    · have h1 : (bestFold score n).1 = score k := by rw [heq]
      by_cases h : (bestFold score n).1 < score n
      · right
        rw [h1] at h
        refine ⟨n, Nat.lt_succ_self n, by rw [bestFold, if_pos (h1 ▸ h)], lt_trans hpos h, ?_, ?_⟩
        · intro j hj
          rcases Nat.lt_succ_iff_lt_or_eq.mp hj with hj | hj
          · exact le_of_lt (lt_of_le_of_lt (hmax j hj) h)
          · exact hj ▸ le_rfl
        · intro j hj
          exact lt_of_le_of_lt (hmax j hj) h
      · right
        rw [h1] at h
        refine ⟨k, lt_trans hk (Nat.lt_succ_self n), by rw [bestFold, if_neg (h1 ▸ h), heq],
          hpos, ?_, hfirst⟩
        intro j hj
        rcases Nat.lt_succ_iff_lt_or_eq.mp hj with hj | hj
        · exact hmax j hj
        · exact hj ▸ not_lt.mp h

lemma nms_nil (t : ℚ) : nms [] t = [] := by
  simp [nms, sortDesc, nmsLoop]

lemma decodePred_eq_some {thr : ℚ} {data : List ℚ} {P C : ℕ}
    {imgW imgH scale padX padY : ℚ} {i : ℕ} {d : Det}
    (h : decodePred thr data P C imgW imgH scale padX padY i = some d) :
    thr ≤ d.score ∧
    d.score = (bestFold (classScore data P i) C).1 ∧
    d.classId = (bestFold (classScore data P i) C).2 := by
  unfold decodePred at h
  by_cases hc : (bestFold (classScore data P i) C).1 < thr
  · rw [if_pos hc] at h
    exact absurd h (by simp)
  · rw [if_neg hc] at h
    have hd : d = remap
        ⟨data.getD i 0, data.getD (i + P) 0, data.getD (i + 2 * P) 0, data.getD (i + 3 * P) 0,
          (bestFold (classScore data P i) C).1, (bestFold (classScore data P i) C).2⟩
        scale padX padY imgW imgH := (Option.some.injEq _ _ ▸ h).symm
    subst hd
    exact ⟨not_lt.mp hc, rfl, rfl⟩

lemma mem_decodeCore {thr : ℚ} {dims : List ℕ} {data : List ℚ}
    {imgW imgH scale padX padY : ℚ} {d : Det}
    (hd : d ∈ decodeCore thr dims data imgW imgH scale padX padY) :
    ∃ (P C i : ℕ), decodePred thr data P C imgW imgH scale padX padY i = some d := by
  rcases dims with _ | ⟨b, _ | ⟨A, _ | ⟨P, _ | ⟨x, rest⟩⟩⟩⟩
  · exact absurd hd (List.not_mem_nil d)
  · exact absurd hd (List.not_mem_nil d)
  · exact absurd hd (List.not_mem_nil d)
  · have hmem : d ∈ (List.range P).filterMap
        (decodePred thr data P (min (A - 4) CLASSES.length) imgW imgH scale padX padY) :=
      nms_subset d hd
    obtain ⟨i, _, hi⟩ := List.mem_filterMap.mp hmem
    exact ⟨P, min (A - 4) CLASSES.length, i, hi⟩
  · exact absurd hd (List.not_mem_nil d)

lemma clampTo_nonneg (hi x : ℚ) : 0 ≤ clampTo hi x :=
  le_max_left 0 _

lemma clampTo_le {hi : ℚ} (h : 0 ≤ hi) (x : ℚ) : clampTo hi x ≤ hi :=
  max_le h (min_le_left _ _)

lemma clampTo_mono (hi : ℚ) {x y : ℚ} (h : x ≤ y) : clampTo hi x ≤ clampTo hi y :=
  max_le_max le_rfl (min_le_min le_rfl h)

/-! ### Claim theorems -/

/-- Claim C1 (code behavior at the failing inputs): on an output tensor whose
attribute count is at most 4, or whose rank is not 3, `decodeYOLO` silently
returns the empty list instead of failing with a `TensorShapeError` as the
spec requires. -/
theorem claim1_silent_empty :
    (∀ (b A P : ℕ) (data : List ℚ) (imgW imgH scale padX padY : ℚ), A ≤ 4 →
      decodeYOLO [b, A, P] data imgW imgH scale padX padY = []) ∧
    (∀ (dims : List ℕ) (data : List ℚ) (imgW imgH scale padX padY : ℚ), dims.length ≠ 3 →
      decodeYOLO dims data imgW imgH scale padX padY = []) := by
  constructor
  · intro b A P data imgW imgH scale padX padY hA
    have hC : min (A - 4) CLASSES.length = 0 := by
      rw [Nat.sub_eq_zero_of_le hA]
      exact Nat.zero_min _
    show nms ((List.range P).filterMap
        (decodePred CONF_THRESHOLD data P (min (A - 4) CLASSES.length) imgW imgH scale padX padY))
        NMS_THRESHOLD = []
    rw [hC]
    have hnone : ∀ i ∈ List.range P,
        decodePred CONF_THRESHOLD data P 0 imgW imgH scale padX padY i = none := by
      intro i _
      unfold decodePred
      rw [if_pos]
      show (bestFold (classScore data P i) 0).1 < CONF_THRESHOLD
      norm_num [bestFold, CONF_THRESHOLD]
    rw [List.filterMap_eq_nil_iff.mpr hnone]
    exact nms_nil _
  · intro dims data imgW imgH scale padX padY hlen
    rcases dims with _ | ⟨a, _ | ⟨b, _ | ⟨c, _ | ⟨e, rest⟩⟩⟩⟩
    · rfl
    · rfl
    · rfl
    · simp at hlen
    · rfl

/-- Claim C1 witness: the spec scenario `[1, 4, 100]` (and a rank-2 shape)
produce the silent empty list. -/
theorem claim1_witness :
    decodeYOLO [1, 4, 100] (List.replicate 400 1) 640 640 1 0 0 = [] ∧
    decodeYOLO [84, 8400] (List.replicate 10 1) 640 640 1 0 0 = [] :=
  ⟨claim1_silent_empty.1 1 4 100 (List.replicate 400 1) 640 640 1 0 0 (by norm_num),
   claim1_silent_empty.2 [84, 8400] (List.replicate 10 1) 640 640 1 0 0 (by norm_num)⟩

/-- Claim C2: a prediction whose tracked best score is below the threshold is
discarded entirely, and every detection the decoder outputs has score at
least the threshold. -/
theorem claim2_confidence_filter :
    (∀ (thr : ℚ) (data : List ℚ) (P C : ℕ) (imgW imgH scale padX padY : ℚ) (i : ℕ),
        (bestFold (classScore data P i) C).1 < thr →
        decodePred thr data P C imgW imgH scale padX padY i = none) ∧
    (∀ (thr : ℚ) (dims : List ℕ) (data : List ℚ) (imgW imgH scale padX padY : ℚ),
        ∀ d ∈ decodeCore thr dims data imgW imgH scale padX padY, thr ≤ d.score) := by
  constructor
  · intro thr data P C imgW imgH scale padX padY i h
    unfold decodePred
    rw [if_pos h]
  · intro thr dims data imgW imgH scale padX padY d hd
    obtain ⟨P, C, i, hi⟩ := mem_decodeCore hd
    exact (decodePred_eq_some hi).1

/-- Claim C2 witness: a concrete decode run emits a detection with score 1,
which is at least the shipped threshold. -/
theorem claim2_witness : CONF_THRESHOLD ≤ (⟨0, 0, 0, 0, 1, 0⟩ : Det).score :=
  claim2_confidence_filter.2 CONF_THRESHOLD [1, 5, 1] [0, 0, 0, 0, 1] 100 100 1 0 0
    ⟨0, 0, 0, 0, 1, 0⟩
    (by norm_num [decodeCore, decodePred, CLASSES, CONF_THRESHOLD, NMS_THRESHOLD,
      bestFold, classScore, remap, clampTo, nms, sortDesc, insertDesc, nmsLoop,
      List.range_succ, List.getD, List.getElem?_cons, List.filterMap_cons,
      List.filterMap_nil])

/-- Claim C3: `nms` returns a subset of its input, is idempotent, and no two
detections of its output have IoU at or above the threshold (in either
argument order). -/
theorem claim3_nms_properties : ∀ (D : List Det) (t : ℚ),
    (∀ d ∈ nms D t, d ∈ D) ∧
    nms (nms D t) t = nms D t ∧
    (nms D t).Pairwise (fun a b => iou a b < t ∧ iou b a < t) := by
  intro D t
  refine ⟨nms_subset, nms_idem D t, ?_⟩
  exact List.Pairwise.imp (fun hab => ⟨hab, by rwa [iou_comm]⟩) (nms_pairwise D t)

/-- Claim C3 witness: on a concrete pair of identical-geometry boxes the
surviving box is an element of the input list. -/
theorem claim3_witness :
    (⟨0, 0, 2, 2, 9/10, 0⟩ : Det) ∈
      ([⟨0, 0, 2, 2, 9/10, 0⟩, ⟨0, 0, 2, 2, 6/10, 0⟩] : List Det) :=
  (claim3_nms_properties [⟨0, 0, 2, 2, 9/10, 0⟩, ⟨0, 0, 2, 2, 6/10, 0⟩] (1/2)).1
    ⟨0, 0, 2, 2, 9/10, 0⟩
    (by norm_num [nms, sortDesc, insertDesc, nmsLoop, iou, interArea, area, EPS])

/-- Claim C4: the remapping step converts center/size to corners, applies the
inverse letterbox map `(x - pad) / scale` to both corners, clamps each
coordinate to the image rectangle, carries score and class unchanged, and its
output lies within `[0, imgW] × [0, imgH]`. -/
theorem claim4_remap : ∀ (c : Candidate) (scale padX padY imgW imgH : ℚ),
    0 ≤ imgW → 0 ≤ imgH →
    ((remap c scale padX padY imgW imgH).x1
        = max 0 (min imgW ((c.cx - c.w / 2 - padX) / scale)) ∧
      (remap c scale padX padY imgW imgH).y1
        = max 0 (min imgH ((c.cy - c.h / 2 - padY) / scale)) ∧
      (remap c scale padX padY imgW imgH).x2
        = max 0 (min imgW ((c.cx + c.w / 2 - padX) / scale)) ∧
      (remap c scale padX padY imgW imgH).y2
        = max 0 (min imgH ((c.cy + c.h / 2 - padY) / scale))) ∧
    ((remap c scale padX padY imgW imgH).score = c.score ∧
      (remap c scale padX padY imgW imgH).classId = c.classId) ∧
    (0 ≤ (remap c scale padX padY imgW imgH).x1 ∧
      (remap c scale padX padY imgW imgH).x1 ≤ imgW ∧
      0 ≤ (remap c scale padX padY imgW imgH).x2 ∧
      (remap c scale padX padY imgW imgH).x2 ≤ imgW ∧
      0 ≤ (remap c scale padX padY imgW imgH).y1 ∧
      (remap c scale padX padY imgW imgH).y1 ≤ imgH ∧
      0 ≤ (remap c scale padX padY imgW imgH).y2 ∧
      (remap c scale padX padY imgW imgH).y2 ≤ imgH) := by
  intro c scale padX padY imgW imgH hW hH
  exact ⟨⟨rfl, rfl, rfl, rfl⟩, ⟨rfl, rfl⟩,
    clampTo_nonneg _ _, clampTo_le hW _, clampTo_nonneg _ _, clampTo_le hW _,
    clampTo_nonneg _ _, clampTo_le hH _, clampTo_nonneg _ _, clampTo_le hH _⟩

/-- Claim C4 witness: a concrete remapped candidate has its first corner
inside `[0, 100]`. -/
theorem claim4_witness :
    0 ≤ (remap ⟨5, 5, 2, 2, 1, 0⟩ 1 0 0 100 100).x1 ∧
      (remap ⟨5, 5, 2, 2, 1, 0⟩ 1 0 0 100 100).x1 ≤ 100 :=
  ⟨((claim4_remap ⟨5, 5, 2, 2, 1, 0⟩ 1 0 0 100 100 (by norm_num) (by norm_num)).2.2).1,
   ((claim4_remap ⟨5, 5, 2, 2, 1, 0⟩ 1 0 0 100 100 (by norm_num) (by norm_num)).2.2).2.1⟩

/-- Claim C5 counterexample: a decoded width of `-4` makes the pipeline emit a
detection with `x1 = 12 > 8 = x2`, so `x1 ≤ x2` does not hold without a sign
precondition on the decoded width and height. -/
theorem claim5_counterexample :
    decodeYOLO [1, 9, 1] [10, 10, -4, 4, 9/10, 0, 0, 0, 0] 100 100 1 0 0
        = [⟨12, 8, 8, 12, 9/10, 0⟩] ∧
      ¬ ((⟨12, 8, 8, 12, 9/10, 0⟩ : Det).x1 ≤ (⟨12, 8, 8, 12, 9/10, 0⟩ : Det).x2) := by
  constructor
  · norm_num [decodeYOLO, decodeCore, decodePred, CLASSES, CONF_THRESHOLD, NMS_THRESHOLD,
      bestFold, classScore, remap, clampTo, nms, sortDesc, insertDesc, nmsLoop,
      List.range_succ, List.getD, List.getElem?_cons, List.filterMap_cons,
      List.filterMap_nil]
  · norm_num

/-- Claim C5 as amended: when the decoded width and height are nonnegative and
the letterbox scale is positive, every remapped detection satisfies
`x1 ≤ x2` and `y1 ≤ y2` with both corners clamped inside the image. -/
theorem claim5_amended : ∀ (c : Candidate) (scale padX padY imgW imgH : ℚ),
    0 ≤ c.w → 0 ≤ c.h → 0 < scale → 0 ≤ imgW → 0 ≤ imgH →
    (remap c scale padX padY imgW imgH).x1 ≤ (remap c scale padX padY imgW imgH).x2 ∧
    (remap c scale padX padY imgW imgH).y1 ≤ (remap c scale padX padY imgW imgH).y2 ∧
    0 ≤ (remap c scale padX padY imgW imgH).x1 ∧
    (remap c scale padX padY imgW imgH).x2 ≤ imgW ∧
    0 ≤ (remap c scale padX padY imgW imgH).y1 ∧
    (remap c scale padX padY imgW imgH).y2 ≤ imgH := by
  intro c scale padX padY imgW imgH hw hh hs hW hH
  have hxnum : c.cx - c.w / 2 - padX ≤ c.cx + c.w / 2 - padX := by linarith
  have hynum : c.cy - c.h / 2 - padY ≤ c.cy + c.h / 2 - padY := by linarith
  have hx : (c.cx - c.w / 2 - padX) / scale ≤ (c.cx + c.w / 2 - padX) / scale :=
    (div_le_div_iff_of_pos_right hs).mpr hxnum
  have hy : (c.cy - c.h / 2 - padY) / scale ≤ (c.cy + c.h / 2 - padY) / scale :=
    (div_le_div_iff_of_pos_right hs).mpr hynum
  exact ⟨clampTo_mono imgW hx, clampTo_mono imgH hy,
    clampTo_nonneg _ _, clampTo_le hW _, clampTo_nonneg _ _, clampTo_le hH _⟩

/-- Claim C5 witness: a concrete candidate with nonnegative width satisfies
the corner ordering after remapping. -/
theorem claim5_witness :
    (remap ⟨6, 6, 4, 4, 1, 1⟩ 2 1 1 50 50).x1 ≤ (remap ⟨6, 6, 4, 4, 1, 1⟩ 2 1 1 50 50).x2 :=
  (claim5_amended ⟨6, 6, 4, 4, 1, 1⟩ 2 1 1 50 50 (by norm_num) (by norm_num) (by norm_num)
    (by norm_num) (by norm_num)).1

/-- Claim C6 counterexample: with a single scanned class channel whose score
is `-1`, the scan returns the initialization `(0, -1)` rather than the
maximum class score `-1` with its class index `0`. -/
theorem claim6_counterexample :
    bestFold (classScore [0, 0, 0, 0, -1] 1 0) (min (5 - 4) CLASSES.length) = (0, -1) ∧
    classScore [0, 0, 0, 0, -1] 1 0 0 = -1 ∧
    ((0 : ℚ), (-1 : ℤ)) ≠ ((-1 : ℚ), (0 : ℤ)) := by
  refine ⟨?_, ?_, ?_⟩
  · norm_num [bestFold, classScore, CLASSES, List.getD, List.getElem?_cons]
  · norm_num [classScore, List.getD, List.getElem?_cons]
  · norm_num [Prod.ext_iff]

/-- Claim C6 as amended: the decoder scans exactly the class channels
`c < min (A - 4) CLASSES.length` at attribute index `4 + c`; whenever some
scanned score is strictly positive, it selects the maximum scanned score and,
because the comparison is strict, the first (lowest) class index attaining
it; when every scanned score is nonpositive the initialization `(0, -1)` is
kept instead. -/
theorem claim6_amended :
    ∀ (data : List ℚ) (P A i : ℕ),
      (∃ c, c < min (A - 4) CLASSES.length ∧ 0 < classScore data P i c) →
      ∃ k, k < min (A - 4) CLASSES.length ∧
        bestFold (classScore data P i) (min (A - 4) CLASSES.length)
          = (classScore data P i k, (k : ℤ)) ∧
        (∀ j < min (A - 4) CLASSES.length, classScore data P i j ≤ classScore data P i k) ∧
        (∀ j < k, classScore data P i j < classScore data P i k) := by
  intro data P A i hex
  obtain ⟨c, hc, hcpos⟩ := hex
  rcases bestFold_spec (classScore data P i) (min (A - 4) CLASSES.length) with
    ⟨_, hle⟩ | ⟨k, hk, heq, _, hmax, hfirst⟩
  · exact absurd hcpos (not_lt.mpr (hle c hc))
  · exact ⟨k, hk, heq, hmax, hfirst⟩

/-- Claim C6 witness: on a concrete tensor with a strictly positive score the
selected class index is a real channel, not the sentinel `-1`. -/
theorem claim6_witness :
    (bestFold (classScore [0, 0, 0, 0, 3/10, 7/10, 7/10, 0, 0] 1 0)
      (min (9 - 4) CLASSES.length)).2 ≠ -1 := by
  obtain ⟨k, hk, heq, hmax, hfirst⟩ :=
    claim6_amended [0, 0, 0, 0, 3/10, 7/10, 7/10, 0, 0] 1 9 0
      ⟨1, by norm_num [CLASSES], by norm_num [classScore, List.getD, List.getElem?_cons]⟩
  rw [heq]
  show (k : ℤ) ≠ -1
  omega

/-- Claim C7: the IoU function of the source is symmetric in its two
arguments. -/
theorem claim7_iou_symmetric : ∀ a b : Det, iou a b = iou b a :=
  fun a b => iou_comm a b

/-- Claim C8 counterexample: a degenerate zero-area box has IoU `0` with
itself, not `1` (the epsilon guard makes the quotient `0 / ε`). -/
theorem claim8_counterexample :
    iou ⟨0, 0, 0, 0, 1, 0⟩ ⟨0, 0, 0, 0, 1, 0⟩ = 0 ∧ (0 : ℚ) ≠ 1 := by
  constructor
  · norm_num [iou, interArea, area, EPS]
  · norm_num

/-- Claim C8 as amended: for a box with positive extent, the IoU with itself
is `area / (area + ε)`, which is strictly below `1` but within `ε / area` of
it; the IoU of two disjoint boxes is exactly `0`. -/
theorem claim8_amended : ∀ a b : Det,
    (a.x1 < a.x2 → a.y1 < a.y2 →
      iou a a = area a / (area a + EPS) ∧
      1 - EPS / area a ≤ iou a a ∧ iou a a < 1) ∧
    (a.x2 ≤ b.x1 ∨ b.x2 ≤ a.x1 ∨ a.y2 ≤ b.y1 ∨ b.y2 ≤ a.y1 → iou a b = 0) := by
  intro a b
  constructor
  · intro hx hy
    have hwx : (0 : ℚ) ≤ a.x2 - a.x1 := by linarith
    have hwy : (0 : ℚ) ≤ a.y2 - a.y1 := by linarith
    have hi : interArea a a = area a := by
      unfold interArea area
      rw [min_self, min_self, max_self, max_self, max_eq_right hwx, max_eq_right hwy]
    have harea : 0 < area a := by
      unfold area
      exact mul_pos (by linarith) (by linarith)
    have heps : (0 : ℚ) < EPS := by norm_num [EPS]
    have hne : area a + EPS ≠ 0 := ne_of_gt (by linarith)
    have hiou : iou a a = area a / (area a + EPS) := by
      unfold iou
      rw [hi]
      congr 1
      ring
    refine ⟨hiou, ?_, ?_⟩
    · have h1 : area a / (area a + EPS) = 1 - EPS / (area a + EPS) := by
        rw [eq_sub_iff_add_eq, div_add_div_same]
        exact div_self hne
      have h2 : EPS / (area a + EPS) ≤ EPS / area a :=
        div_le_div_of_nonneg_left (le_of_lt heps) harea (by linarith)
      rw [hiou, h1]
      linarith
    · rw [hiou, div_lt_one (by linarith)]
      linarith
  · intro hdisj
    rcases hdisj with h | h | h | h
    · have hle : min a.x2 b.x2 - max a.x1 b.x1 ≤ 0 := by
        have h1 : min a.x2 b.x2 ≤ a.x2 := min_le_left _ _
        have h2 : b.x1 ≤ max a.x1 b.x1 := le_max_right _ _
        linarith
      unfold iou interArea
      rw [max_eq_left hle, zero_mul, zero_div]
    · have hle : min a.x2 b.x2 - max a.x1 b.x1 ≤ 0 := by
        have h1 : min a.x2 b.x2 ≤ b.x2 := min_le_right _ _
        have h2 : a.x1 ≤ max a.x1 b.x1 := le_max_left _ _
        linarith
      unfold iou interArea
      rw [max_eq_left hle, zero_mul, zero_div]
    · have hle : min a.y2 b.y2 - max a.y1 b.y1 ≤ 0 := by
        have h1 : min a.y2 b.y2 ≤ a.y2 := min_le_left _ _
        have h2 : b.y1 ≤ max a.y1 b.y1 := le_max_right _ _
        linarith
      unfold iou interArea
      rw [max_eq_left hle, mul_zero, zero_div]
    · have hle : min a.y2 b.y2 - max a.y1 b.y1 ≤ 0 := by
        have h1 : min a.y2 b.y2 ≤ b.y2 := min_le_right _ _
        have h2 : a.y1 ≤ max a.y1 b.y1 := le_max_left _ _
        linarith
      unfold iou interArea
      rw [max_eq_left hle, mul_zero, zero_div]

/-- Claim C8 witness: the unit box has self-IoU strictly below 1, and its IoU
with a disjoint translate is 0. -/
theorem claim8_witness :
    iou ⟨0, 0, 1, 1, 1, 0⟩ ⟨0, 0, 1, 1, 1, 0⟩ < 1 ∧
      iou ⟨0, 0, 1, 1, 1, 0⟩ ⟨2, 0, 3, 1, 1, 0⟩ = 0 :=
  ⟨((claim8_amended ⟨0, 0, 1, 1, 1, 0⟩ ⟨0, 0, 1, 1, 1, 0⟩).1 (by norm_num) (by norm_num)).2.2,
   (claim8_amended ⟨0, 0, 1, 1, 1, 0⟩ ⟨2, 0, 3, 1, 1, 0⟩).2 (Or.inl (by norm_num))⟩

/-- Claim C9: the letterbox computation agrees with the spec's formulas at
`S = 640`, and on a 1920 × 1080 image it yields scale `1/3`, a 640 × 360
scaled region, and padding `(0, 140)`. -/
theorem claim9_letterbox :
    (∀ srcW srcH : ℚ, letterbox srcW srcH = specLetterbox 640 srcW srcH) ∧
    letterbox 1920 1080 = ⟨1/3, 640, 360, 0, 140⟩ := by
  constructor
  · intro w h
    norm_num [letterbox, specLetterbox, INPUT_SIZE]
  · norm_num [letterbox, INPUT_SIZE]

/-- Claim C10: with a strictly positive confidence threshold every emitted
detection has a nonnegative class index and a strictly positive score (the
sentinel `-1` never reaches the output); at threshold `0`, a prediction whose
scores are all nonpositive is emitted with the sentinel class `-1`. -/
theorem claim10_sentinel :
    (∀ (thr : ℚ) (dims : List ℕ) (data : List ℚ) (imgW imgH scale padX padY : ℚ),
        0 < thr →
        ∀ d ∈ decodeCore thr dims data imgW imgH scale padX padY,
          0 ≤ d.classId ∧ 0 < d.score) ∧
    decodeCore 0 [1, 5, 1] [0, 0, 0, 0, 0] 100 100 1 0 0 = [⟨0, 0, 0, 0, 0, -1⟩] := by
  constructor
  · intro thr dims data imgW imgH scale padX padY hthr d hd
    obtain ⟨P, C, i, hi⟩ := mem_decodeCore hd
    obtain ⟨hle, hs, hc⟩ := decodePred_eq_some hi
    have hpos : 0 < (bestFold (classScore data P i) C).1 :=
      lt_of_lt_of_le hthr (hs ▸ hle)
    rcases bestFold_spec (classScore data P i) C with ⟨heq, _⟩ | ⟨k, _, heq, _, _, _⟩
    · rw [heq] at hpos
      norm_num at hpos
    · refine ⟨?_, lt_of_lt_of_le hthr hle⟩
      rw [hc, heq]
      show (0 : ℤ) ≤ (k : ℤ)
      exact_mod_cast Nat.zero_le k
  · norm_num [decodeCore, decodePred, CLASSES, NMS_THRESHOLD,
      bestFold, classScore, remap, clampTo, nms, sortDesc, insertDesc, nmsLoop,
      List.range_succ, List.getD, List.getElem?_cons, List.filterMap_cons,
      List.filterMap_nil]

/-- Claim C10 witness: at the shipped positive threshold, a concrete emitted
detection has class index 0 and score 1. -/
theorem claim10_witness :
    0 ≤ (⟨0, 0, 0, 0, 1, 0⟩ : Det).classId ∧ 0 < (⟨0, 0, 0, 0, 1, 0⟩ : Det).score :=
  claim10_sentinel.1 CONF_THRESHOLD [1, 5, 1] [0, 0, 0, 0, 1] 100 100 1 0 0
    (by norm_num [CONF_THRESHOLD]) ⟨0, 0, 0, 0, 1, 0⟩
    (by norm_num [decodeCore, decodePred, CLASSES, CONF_THRESHOLD, NMS_THRESHOLD,
      bestFold, classScore, remap, clampTo, nms, sortDesc, insertDesc, nmsLoop,
      List.range_succ, List.getD, List.getElem?_cons, List.filterMap_cons,
      List.filterMap_nil])
